import Mathlib

/-!
Shallow embedding of the picozero output-control library
(src/picozero/picozero.py) for verification of its specification.

The embedding covers:
* the `ValueChange` timed value sequencer (`_set_value`, `stop`) as an
  explicit state machine driven by a one-shot timer;
* the PWM channel registry (`PIN_TO_PWM_CHANNEL`, `_check_pwm_channel`,
  `PWMOutputDevice.close`) over an association list;
* the blink step-sequence builders (`OutputDevice.blink`,
  `PWMLED.blink`) with exact rational arithmetic in place of the
  source's floating point;
* `PWMBuzzer._to_freq` tone resolution.
-/

namespace Picozero

/-! ## ValueChange: the value sequencer

A restartable generator that yields a fixed finite sequence of steps per
cycle is modelled by the list `cycle : List (α × ℚ)` of
(value, seconds) pairs; the live generator instance `self._gen` is the
list of steps it has not yet yielded.  Sink writes are recorded as an
event trace: `stepWrite v` for `self._output_device._write(value)` inside
the try-block, and `neutralWrite` for the terminal
`self._output_device.value = 0` (which writes the neutral value 0).
-/

/-- A write to the output device performed by the sequencer: either a
step value pulled from the generator, or the neutral value 0 written
when the final cycle is exhausted. -/
inductive Event (α : Type) where
  | stepWrite (v : α) : Event α
  | neutralWrite : Event α
deriving DecidableEq

/-- State of a `ValueChange` object: the remaining steps of the current
generator instance (`self._gen`), the repeat count (`self._n`, `none`
meaning repeat forever), the `self._running` flag, whether the one-shot
timer is armed, and the trace of sink writes performed so far. -/
structure VC (α : Type) where
  gen : List (α × ℚ)
  n : Option Int
  running : Bool
  armed : Bool
  events : List (Event α)
deriving DecidableEq

/-- `ValueChange._set_value`, with explicit fuel bounding the depth of
the inline recursion performed in the `StopIteration` branch when the
generator is exhausted and restarted.  `none` means the fuel was
exhausted, i.e. the call would recurse deeper than the given bound.

The branches mirror the source: if `self._running`, pull the next step,
write its value and re-arm the one-shot timer; on exhaustion decrement
`self._n` (a no-op for `None`); if the count reaches exactly 0, write
the neutral value 0, clear `running` and leave the timer disarmed;
otherwise recreate the generator from the factory (`gen := cycle`) and
recurse.  If `self._running` is false the try-body does nothing. -/
def setValue (fuel : Nat) (cycle : List (α × ℚ)) (s : VC α) : Option (VC α) :=
  match fuel with
  | 0 => none
  | fuel + 1 =>
    if s.running then
      match s.gen with
      | (v, _) :: rest =>
        some { s with gen := rest, armed := true,
                      events := s.events ++ [Event.stepWrite v] }
      | [] =>
        let n' : Option Int := s.n.map (· - 1)
        if n' = some 0 then
          some { s with n := n', running := false, armed := false,
                        events := s.events ++ [Event.neutralWrite] }
        else
          setValue fuel cycle { s with n := n', gen := cycle }
    else
      some s

/-- `ValueChange.stop`: clear the running flag and deinitialise the
timer.  It performs no sink write (the event trace is untouched). -/
def stop (s : VC α) : VC α :=
  { s with running := false, armed := false }

/-- The state constructed by `ValueChange.__init__` just before its
synchronous call to `self._set_value`: a fresh generator instance,
repeat count `n`, `running = true`, timer not yet armed, no writes. -/
def initVC (cycle : List (α × ℚ)) (n : Option Int) : VC α :=
  ⟨cycle, n, true, false, []⟩

/-- One firing of the one-shot timer: if the timer is armed it is
consumed (one-shot) and the callback `_set_value` runs with inline
recursion fuel 2; if the timer is not armed nothing happens. -/
def fire (cycle : List (α × ℚ)) (s : VC α) : Option (VC α) :=
  if s.armed then setValue 2 cycle { s with armed := false } else some s

/-- `k` successive timer firings. -/
def runK (cycle : List (α × ℚ)) : Nat → VC α → Option (VC α)
  | 0, s => some s
  | k + 1, s => (fire cycle s).bind (runK cycle k)

/-- The whole playback: `ValueChange.__init__` (which calls
`_set_value` synchronously) followed by `k` timer firings. -/
def runVC (cycle : List (α × ℚ)) (n : Option Int) (k : Nat) : Option (VC α) :=
  (setValue 2 cycle (initVC cycle n)).bind (runK cycle k)

/-- The step values of a cycle, as written to the sink. -/
def cycleWrites (cycle : List (α × ℚ)) : List (Event α) :=
  cycle.map (fun p => Event.stepWrite p.1)

/-- A live playing state: running, timer armed, remaining steps `g`,
repeat count `n`, write trace `E`. -/
def mkS (g : List (α × ℚ)) (n : Option Int) (E : List (Event α)) : VC α :=
  ⟨g, n, true, true, E⟩

/-- The terminal state after natural completion: repeat count 0,
stopped, timer released. -/
def termS (E : List (Event α)) : VC α :=
  ⟨[], some 0, false, false, E⟩

theorem fire_step (cycle : List (α × ℚ)) (v : α) (d : ℚ)
    (rest : List (α × ℚ)) (n : Option Int) (E : List (Event α)) :
    fire cycle (mkS ((v, d) :: rest) n E) =
      some (mkS rest n (E ++ [Event.stepWrite v])) := by
  simp [fire, setValue, mkS]

theorem fire_exhaust_restart (v : α) (d : ℚ) (rest : List (α × ℚ))
    (n : Option Int) (E : List (Event α)) (hn : n.map (· - 1) ≠ some 0) :
    fire ((v, d) :: rest) (mkS [] n E) =
      some (mkS rest (n.map (· - 1)) (E ++ [Event.stepWrite v])) := by
  simp only [fire, mkS, setValue, if_pos rfl]
  simp [hn]

theorem fire_exhaust_terminal (cycle : List (α × ℚ)) (E : List (Event α)) :
    fire cycle (mkS [] (some 1) E) =
      some (termS (E ++ [Event.neutralWrite])) := by
  simp [fire, setValue, mkS, termS]

theorem runK_add (cycle : List (α × ℚ)) (a b : Nat) (s : VC α) :
    runK cycle (a + b) s = (runK cycle a s).bind (runK cycle b) := by
  induction a generalizing s with
  | zero => simp [runK]
  | succ a ih =>
    have : a + 1 + b = (a + b) + 1 := by omega
    rw [this]
    simp only [runK]
    cases fire cycle s with
    | none => simp
    | some t => simpa using ih t

theorem runK_one (cycle : List (α × ℚ)) (s : VC α) :
    runK cycle 1 s = fire cycle s := by
  simp only [runK]
  cases fire cycle s <;> simp [runK]

theorem runK_unarmed (cycle : List (α × ℚ)) (k : Nat) (s : VC α)
    (h : s.armed = false) : runK cycle k s = some s := by
  induction k with
  | zero => rfl
  | succ k ih => simp only [runK, fire, h, if_neg]; simpa using ih

theorem runK_inCycle (cycle : List (α × ℚ)) (g : List (α × ℚ))
    (n : Option Int) (E : List (Event α)) :
    runK cycle g.length (mkS g n E) = some (mkS [] n (E ++ cycleWrites g)) := by
  induction g generalizing E with
  | nil => simp [runK, cycleWrites]
  | cons p g ih =>
    obtain ⟨v, d⟩ := p
    simp only [List.length_cons, runK, fire_step, Option.bind_some, Option.some_bind]
    rw [ih (E ++ [Event.stepWrite v])]
    simp [cycleWrites, mkS]

theorem runK_cycles (v : α) (d : ℚ) (rest : List (α × ℚ)) (N : Nat) :
    ∀ E : List (Event α),
      runK ((v, d) :: rest) (N * ((v, d) :: rest).length + 1)
          (mkS [] (some ((N : Int) + 1)) E) =
        some (termS (E ++ (List.replicate N (cycleWrites ((v, d) :: rest))).flatten
                       ++ [Event.neutralWrite])) := by
  induction N with
  | zero =>
    intro E
    have h0 : 0 * ((v, d) :: rest).length + 1 = 1 := by omega
    have hc : ((0 : Nat) : Int) + 1 = 1 := by norm_num
    rw [h0, hc, runK_one, fire_exhaust_terminal]
    simp
  | succ N ih =>
    intro E
    have hk : (N + 1) * ((v, d) :: rest).length + 1 =
        1 + (rest.length + (N * ((v, d) :: rest).length + 1)) := by
      simp only [List.length_cons]; ring
    rw [hk, runK_add, runK_one]
    have hc : ((N + 1 : Nat) : Int) + 1 = (N : Int) + 1 + 1 := by push_cast; ring
    rw [hc]
    have hn : (some ((N : Int) + 1 + 1)).map (· - 1) ≠ some 0 := by
      simp only [Option.map_some']
      intro h
      have := Option.some.inj h
      omega
    rw [fire_exhaust_restart v d rest (some ((N : Int) + 1 + 1)) E hn]
    simp only [Option.some_bind]
    rw [runK_add, runK_inCycle]
    simp only [Option.some_bind]
    have he : Option.map (fun x => x - 1) (some ((N : Int) + 1 + 1)) =
        some ((N : Int) + 1) := by
      simp only [Option.map_some']
      norm_num
    rw [he, ih]
    simp [cycleWrites, List.replicate_succ, List.append_assoc]

theorem init_step (v : α) (d : ℚ) (rest : List (α × ℚ)) (n : Option Int) :
    setValue 2 ((v, d) :: rest) (initVC ((v, d) :: rest) n) =
      some (mkS rest n [Event.stepWrite v]) := by
  simp [setValue, initVC, mkS]

theorem runVC_forever (v : α) (d : ℚ) (rest : List (α × ℚ)) (k : Nat) :
    ∃ (g : List (α × ℚ)) (E : List (Event α)),
      runVC ((v, d) :: rest) none k = some (mkS g none E) ∧
      g <:+ (v, d) :: rest ∧ E.length = k + 1 ∧ Event.neutralWrite ∉ E := by
  induction k with
  | zero =>
    refine ⟨rest, [Event.stepWrite v], ?_, List.suffix_cons (v, d) rest, by simp, by simp⟩
    simp [runVC, init_step, runK]
  | succ k ih =>
    obtain ⟨g, E, hrun, hsuf, hlen, hmem⟩ := ih
    have hstep : runVC ((v, d) :: rest) none (k + 1) =
        (runVC ((v, d) :: rest) none k).bind (fire ((v, d) :: rest)) := by
      simp only [runVC, runK_add, Option.bind_assoc]
      cases setValue 2 ((v, d) :: rest) (initVC ((v, d) :: rest) none) with
      | none => simp
      | some t =>
        simp only [Option.some_bind]
        cases runK ((v, d) :: rest) k t with
        | none => simp
        | some u => simp [runK_one]
    rw [hstep, hrun, Option.some_bind]
    cases g with
    | nil =>
      rw [fire_exhaust_restart v d rest none E (by simp)]
      exact ⟨rest, E ++ [Event.stepWrite v], by simp,
        List.suffix_cons (v, d) rest, by simp [hlen], by simp [hmem]⟩
    | cons p g =>
      obtain ⟨w, e⟩ := p
      rw [fire_step]
      refine ⟨g, E ++ [Event.stepWrite w], rfl, ?_, by simp [hlen], by simp [hmem]⟩
      exact (List.suffix_cons (w, e) g).trans hsuf

/-- Claim C1: for a restartable generator yielding the fixed non-empty
finite cycle `(v, d) :: rest` of steps, with repeat count `N ≥ 1` the
sequencer performs exactly `N × steps_per_cycle` step writes followed by
one write of the neutral value 0, ends with `running = false`, and no
further timer firing changes the state; with repeat count `None` it is
still running after every number of timer firings, has performed one
step write per invocation, and has never written the neutral value. -/
theorem valuechange_repeat_semantics {α : Type} (v : α) (d : ℚ)
    (rest : List (α × ℚ)) (N : Nat) (hN : 1 ≤ N) :
    (∀ j : Nat,
      runVC ((v, d) :: rest) (some (N : Int)) (N * ((v, d) :: rest).length + j) =
        some (termS ((List.replicate N (cycleWrites ((v, d) :: rest))).flatten
                       ++ [Event.neutralWrite]))) ∧
    ((List.replicate N (cycleWrites ((v, d) :: rest))).flatten).length =
      N * ((v, d) :: rest).length ∧
    (∀ k : Nat, ∃ s : VC α,
      runVC ((v, d) :: rest) none k = some s ∧ s.running = true ∧
        s.events.length = k + 1 ∧ Event.neutralWrite ∉ s.events) := by
  refine ⟨?_, by simp [cycleWrites, Nat.mul_comm], ?_⟩
  · intro j
    obtain ⟨M, rfl⟩ : ∃ M, N = M + 1 := ⟨N - 1, by omega⟩
    have hsplit : (M + 1) * ((v, d) :: rest).length + j =
        (rest.length + (M * ((v, d) :: rest).length + 1)) + j := by
      simp only [List.length_cons]; ring
    rw [runVC, init_step, Option.some_bind, hsplit, runK_add, runK_add,
      runK_inCycle, Option.some_bind]
    have hc : ((M + 1 : Nat) : Int) = (M : Int) + 1 := by push_cast; ring
    rw [hc, runK_cycles, Option.some_bind, runK_unarmed _ _ _ rfl]
    have hjoin : [Event.stepWrite v] ++ cycleWrites rest =
        cycleWrites ((v, d) :: rest) := by simp [cycleWrites]
    rw [← hjoin]
    simp [List.replicate_succ, List.append_assoc]
  · intro k
    obtain ⟨g, E, hrun, _, hlen, hmem⟩ := runVC_forever v d rest k
    exact ⟨mkS g none E, hrun, rfl, hlen, hmem⟩

/-- Claim C1 witness: the theorem instantiated at the two-step cycle
`[(1, 1), (0, 1)]` over `Int` values with repeat count 2. -/
theorem valuechange_repeat_semantics_witness :
    (∀ j : Nat,
      runVC [((1 : Int), (1 : ℚ)), ((0 : Int), (1 : ℚ))] (some (2 : Int)) (2 * 2 + j) =
        some (termS ((List.replicate 2 (cycleWrites [((1 : Int), (1 : ℚ)), ((0 : Int), (1 : ℚ))])).flatten
                       ++ [Event.neutralWrite]))) ∧
    ((List.replicate 2 (cycleWrites [((1 : Int), (1 : ℚ)), ((0 : Int), (1 : ℚ))])).flatten).length =
      2 * 2 ∧
    (∀ k : Nat, ∃ s : VC Int,
      runVC [((1 : Int), (1 : ℚ)), ((0 : Int), (1 : ℚ))] none k = some s ∧
        s.running = true ∧ s.events.length = k + 1 ∧
        Event.neutralWrite ∉ s.events) :=
  valuechange_repeat_semantics 1 1 [((0 : Int), (1 : ℚ))] 2 (by norm_num)

/-- Claim C2 (code bug): a `ValueChange` started with repeat count 0 is
not already complete: the synchronous call in `__init__` pulls and
applies the first step regardless of `n`, and at each exhaustion the
count is decremented from 0 to -1, -2, ... never reaching 0, so the
sequence loops forever.  Concretely, with the one-step cycle `[(1, 1)]`
and `n = 0`, after `__init__` and three timer firings four step values
have been applied, the count is -3 and the sequencer is still running. -/
theorem valuechange_repeat_zero_loops_forever :
    runVC [((1 : Int), (1 : ℚ))] (some 0) 3 =
      some ⟨[], some (-3), true, true,
            [Event.stepWrite 1, Event.stepWrite 1,
             Event.stepWrite 1, Event.stepWrite 1]⟩ := by
  decide

/-- Claim C3: `stop` is idempotent and frame-preserving: a second
`stop` changes nothing, `stop` performs no sink write (the event trace,
and hence the last applied value, is untouched), and a `_set_value`
callback that runs after `stop` performs no sink write and does not
re-arm the timer (the state is unchanged); in particular a timer firing
after `stop` is a no-op. -/
theorem valuechange_stop_idempotent {α : Type} :
    ∀ (cycle : List (α × ℚ)) (s : VC α),
      stop (stop s) = stop s ∧
      (stop s).events = s.events ∧
      (stop s).gen = s.gen ∧ (stop s).n = s.n ∧
      (stop s).running = false ∧ (stop s).armed = false ∧
      setValue 2 cycle (stop s) = some (stop s) ∧
      fire cycle (stop s) = some (stop s) := by
  intro cycle s
  refine ⟨rfl, rfl, rfl, rfl, rfl, rfl, ?_, ?_⟩
  · simp [setValue, stop]
  · simp [fire, stop]

/-- Claim C6: processing a step never inline-recurses unboundedly
within one timer callback.  For any generator whose cycle is non-empty,
constant fuel 2 always suffices for `_set_value` — the inline recursion
on exhaustion-and-restart has depth at most one, however many
zero-duration steps the cycle contains; moreover a zero-duration step
is handled like any other step: its value is written, the one-shot
timer is re-armed, and the callback returns with the remaining steps
left for the next firing (they are scheduled through the timer, not
processed inline). -/
theorem valuechange_bounded_inline_recursion {α : Type}
    (cycle : List (α × ℚ)) (hne : cycle ≠ []) :
    (∀ s : VC α, (setValue 2 cycle s).isSome = true) ∧
    (∀ (s : VC α) (v : α) (rest : List (α × ℚ)),
      s.running = true → s.gen = (v, 0) :: rest →
      setValue 2 cycle s =
        some { s with gen := rest, armed := true,
                      events := s.events ++ [Event.stepWrite v] }) := by
  constructor
  · intro s
    obtain ⟨p, cyc, rfl⟩ : ∃ p cyc, cycle = p :: cyc := by
      cases cycle with
      | nil => exact absurd rfl hne
      | cons p cyc => exact ⟨p, cyc, rfl⟩
    obtain ⟨w, e⟩ := p
    cases hr : s.running with
    | false => simp [setValue, hr]
    | true =>
      cases hg : s.gen with
      | cons q tail => obtain ⟨qa, qb⟩ := q; simp [setValue, hr, hg]
      | nil =>
        by_cases h0 : s.n.map (· - 1) = some 0
        · simp [setValue, hr, hg, h0]
        · simp [setValue, hr, hg, h0]
  · intro s v rest hr hg
    simp [setValue, hr, hg]

/-- Claim C6 witness: the theorem applied to the concrete one-element
cycle `[(1, 0)]` (a single zero-duration step) at a concrete state. -/
theorem valuechange_bounded_inline_recursion_witness :
    (setValue 2 [((1 : Int), (0 : ℚ))] (initVC [((1 : Int), (0 : ℚ))] none)).isSome = true ∧
    setValue 2 [((1 : Int), (0 : ℚ))] (mkS [((1 : Int), (0 : ℚ))] none []) =
      some { mkS [((1 : Int), (0 : ℚ))] none [] with
              gen := [], armed := true,
              events := ([] : List (Event Int)) ++ [Event.stepWrite 1] } :=
  ⟨(valuechange_bounded_inline_recursion [((1 : Int), (0 : ℚ))] (by decide)).1
      (initVC [((1 : Int), (0 : ℚ))] none),
   (valuechange_bounded_inline_recursion [((1 : Int), (0 : ℚ))] (by decide)).2
      (mkS [((1 : Int), (0 : ℚ))] none []) 1 [] rfl rfl⟩

/-! ## PWM channel registry

`PWMOutputDevice._channels_used` is a dict from channel id (a string
such as "4B") to the pin number holding it.  It is modelled as an
association list with unique keys; `_check_pwm_channel` either raises
`PWMChannelAlreadyInUse` or inserts, and `close` performs a Python
`del`, which raises `KeyError` when the key is absent. -/

/-- `PWMOutputDevice.PIN_TO_PWM_CHANNEL`: the static pin-to-channel
table, indexed by pin number 0..29. -/
def PIN_TO_PWM_CHANNEL : List String :=
  ["0A", "0B", "1A", "1B", "2A", "2B", "3A", "3B", "4A", "4B",
   "5A", "5B", "6A", "6B", "7A", "7B", "0A", "0B", "1A", "1B",
   "2A", "2B", "3A", "3B", "4A", "4B", "5A", "5B", "6A", "6B"]

/-- The channel registry `PWMOutputDevice._channels_used`. -/
abbrev Registry := List (String × Nat)

/-- Dict lookup: first binding of the key, if any. -/
def lookupStr : List (String × Nat) → String → Option Nat
  | [], _ => none
  | (c, p) :: r, ch => if c = ch then some p else lookupStr r ch

/-- `PWMOutputDevice.PIN_TO_PWM_CHANNEL[pin_num]`. -/
def pinChannel (pin : Nat) : String :=
  PIN_TO_PWM_CHANNEL.getD pin ""

/-- The typed error raised by `_check_pwm_channel`: its message reports
the conflicting channel id and the pin currently holding it. -/
structure PWMChannelAlreadyInUse where
  channel : String
  pin : Nat
deriving DecidableEq

/-- Python `KeyError`, raised by `del d[k]` when `k` is absent. -/
inductive KeyError where
  | mk : KeyError
deriving DecidableEq

instance {ε α : Type} [DecidableEq ε] [DecidableEq α] :
    DecidableEq (Except ε α) := fun a b =>
  match a, b with
  | Except.ok x, Except.ok y =>
    if h : x = y then Decidable.isTrue (by rw [h])
    else Decidable.isFalse (by intro he; cases he; exact h rfl)
  | Except.error x, Except.error y =>
    if h : x = y then Decidable.isTrue (by rw [h])
    else Decidable.isFalse (by intro he; cases he; exact h rfl)
  | Except.ok _, Except.error _ => Decidable.isFalse (by intro he; cases he)
  | Except.error _, Except.ok _ => Decidable.isFalse (by intro he; cases he)

/-- `PWMOutputDevice._check_pwm_channel`: look up the pin's channel in
the registry; if occupied raise `PWMChannelAlreadyInUse` reporting the
channel and its current owner, otherwise record the new owner. -/
def checkPwmChannel (reg : Registry) (pin : Nat) :
    Except PWMChannelAlreadyInUse Registry :=
  match lookupStr reg (pinChannel pin) with
  | some owner => Except.error ⟨pinChannel pin, owner⟩
  | none => Except.ok (reg ++ [(pinChannel pin, pin)])

/-- The registry that stands after a call to `_check_pwm_channel`:
on an exception the dict is untouched. -/
def regAfterCheck (reg : Registry) (pin : Nat) : Registry :=
  match checkPwmChannel reg pin with
  | Except.ok r => r
  | Except.error _ => reg

/-- The registry mutation in `PWMOutputDevice.close`:
`del _channels_used[PIN_TO_PWM_CHANNEL[self._pin_num]]`, which removes
the binding or raises `KeyError` when it is absent. -/
def pwmClose (reg : Registry) (pin : Nat) : Except KeyError Registry :=
  match lookupStr reg (pinChannel pin) with
  | some _ => Except.ok (reg.filter (fun p => p.1 != pinChannel pin))
  | none => Except.error KeyError.mk

theorem lookupStr_append_none (l1 l2 : List (String × Nat)) (ch : String)
    (h : lookupStr l1 ch = none) :
    lookupStr (l1 ++ l2) ch = lookupStr l2 ch := by
  induction l1 with
  | nil => rfl
  | cons p r ih =>
    obtain ⟨c, q⟩ := p
    by_cases hc : c = ch
    · simp [lookupStr, hc] at h
    · simp only [lookupStr, if_neg hc] at h
      simpa [lookupStr, hc] using ih h

theorem filter_of_lookup_none (l : List (String × Nat)) (ch : String)
    (h : lookupStr l ch = none) :
    l.filter (fun p => p.1 != ch) = l := by
  induction l with
  | nil => rfl
  | cons p r ih =>
    obtain ⟨c, q⟩ := p
    by_cases hc : c = ch
    · simp [lookupStr, hc] at h
    · simp only [lookupStr, if_neg hc] at h
      have hb : (c != ch) = true := by simpa using hc
      simp [List.filter, hb, ih h]

theorem lookupStr_filter_self (l : List (String × Nat)) (ch : String) :
    lookupStr (l.filter (fun p => p.1 != ch)) ch = none := by
  induction l with
  | nil => rfl
  | cons p r ih =>
    obtain ⟨c, q⟩ := p
    by_cases hc : c = ch
    · have hb : (c != ch) = false := by simpa using hc
      simpa [List.filter, hb] using ih
    · have hb : (c != ch) = true := by simpa using hc
      simpa [List.filter, hb, lookupStr, hc] using ih

/-- Claim C4: constructing a PWM device whose channel is already held
raises the typed `PWMChannelAlreadyInUse` error reporting the channel
id and the holding pin; the failed construction leaves the registry
untouched; and after the holder is closed (releasing the channel) a
device on the same channel constructs successfully. -/
theorem pwm_channel_conflict (reg : Registry) (pinA pinB : Nat)
    (hsame : pinChannel pinB = pinChannel pinA)
    (hfree : lookupStr reg (pinChannel pinA) = none) :
    checkPwmChannel reg pinA = Except.ok (reg ++ [(pinChannel pinA, pinA)]) ∧
    checkPwmChannel (reg ++ [(pinChannel pinA, pinA)]) pinB =
      Except.error ⟨pinChannel pinA, pinA⟩ ∧
    regAfterCheck (reg ++ [(pinChannel pinA, pinA)]) pinB =
      reg ++ [(pinChannel pinA, pinA)] ∧
    pwmClose (reg ++ [(pinChannel pinA, pinA)]) pinA = Except.ok reg ∧
    checkPwmChannel reg pinB = Except.ok (reg ++ [(pinChannel pinB, pinB)]) := by
  have hlook : lookupStr (reg ++ [(pinChannel pinA, pinA)]) (pinChannel pinA) =
      some pinA := by
    rw [lookupStr_append_none reg _ _ hfree]; simp [lookupStr]
  refine ⟨?_, ?_, ?_, ?_, ?_⟩
  · simp [checkPwmChannel, hfree]
  · simp [checkPwmChannel, hsame, hlook]
  · simp [regAfterCheck, checkPwmChannel, hsame, hlook]
  · have hfil : (reg ++ [(pinChannel pinA, pinA)]).filter
        (fun p => p.1 != pinChannel pinA) = reg := by
      rw [List.filter_append, filter_of_lookup_none reg _ hfree]
      simp [List.filter]
    simp [pwmClose, hlook, hfil]
  · simp [checkPwmChannel, hsame, hfree]

/-- Claim C4 witness: the conflict scenario at pins 25 and 9 (both on
channel 4B), starting from the empty registry. -/
theorem pwm_channel_conflict_witness :
    checkPwmChannel [] 25 = Except.ok ([] ++ [(pinChannel 25, 25)]) ∧
    checkPwmChannel ([] ++ [(pinChannel 25, 25)]) 9 =
      Except.error ⟨pinChannel 25, 25⟩ ∧
    regAfterCheck ([] ++ [(pinChannel 25, 25)]) 9 =
      [] ++ [(pinChannel 25, 25)] ∧
    pwmClose ([] ++ [(pinChannel 25, 25)]) 25 = Except.ok [] ∧
    checkPwmChannel [] 9 = Except.ok ([] ++ [(pinChannel 9, 9)]) :=
  pwm_channel_conflict [] 25 9 (by decide) (by decide)

/-- Claim C5 counterexample: releasing an absent registry entry is not
no-op-safe.  Closing the device on pin 25 once succeeds and removes the
entry for channel 4B, but a second close — the dict entry now being
absent — raises `KeyError`: the double release faults. -/
theorem pwm_double_close_faults :
    pwmClose [(("4B" : String), 25)] 25 = Except.ok [] ∧
    pwmClose ([] : Registry) 25 = Except.error KeyError.mk := by
  decide

/-- Claim C5 amended: releasing a channel registry entry is NOT no-op
safe when the entry is absent.  `close` performs a Python `del` on the
channel key: when the channel is registered the entry is removed, and
when it is not registered — in particular on the second of two
consecutive closes — the `del` raises `KeyError`. -/
theorem pwm_close_release_behavior (reg : Registry) (pin : Nat) :
    (lookupStr reg (pinChannel pin) = none →
      pwmClose reg pin = Except.error KeyError.mk) ∧
    (∀ owner : Nat, lookupStr reg (pinChannel pin) = some owner →
      ∃ r : Registry, pwmClose reg pin = Except.ok r ∧
        lookupStr r (pinChannel pin) = none ∧
        pwmClose r pin = Except.error KeyError.mk) := by
  constructor
  · intro h
    simp [pwmClose, h]
  · intro owner h
    refine ⟨reg.filter (fun p => p.1 != pinChannel pin), ?_, ?_, ?_⟩
    · simp [pwmClose, h]
    · exact lookupStr_filter_self reg (pinChannel pin)
    · simp [pwmClose, lookupStr_filter_self reg (pinChannel pin)]

/-- Claim C5 amended witness: the behavior at pin 25 with the registry
as it stands after `pico_led` is constructed, and at the empty
registry. -/
theorem pwm_close_release_behavior_witness :
    pwmClose ([] : Registry) 25 = Except.error KeyError.mk ∧
    (∃ r : Registry, pwmClose [(("4B" : String), 25)] 25 = Except.ok r ∧
      lookupStr r (pinChannel 25) = none ∧
      pwmClose r 25 = Except.error KeyError.mk) :=
  ⟨(pwm_close_release_behavior [] 25).1 (by decide),
   (pwm_close_release_behavior [(("4B" : String), 25)] 25).2 25 (by decide)⟩

/-- Claim C10: the static table maps pins `p` and `p + 16` (for
`p ≤ 13`) to the same PWM channel, so constructing a PWM device on pin
`p + 16` while a live device holds pin `p` raises
`PWMChannelAlreadyInUse` naming that channel and the holding pin.  In
particular `pico_led = LED(25)` at module import registers channel 4B
for pin 25, after which constructing a PWM device on pin 9 fails. -/
theorem pwm_pin_alias_conflict :
    (∀ p : Nat, p ≤ 13 → pinChannel (p + 16) = pinChannel p) ∧
    (∀ (reg : Registry) (p q : Nat), p ≤ 13 →
      lookupStr reg (pinChannel p) = some q →
      checkPwmChannel reg (p + 16) = Except.error ⟨pinChannel p, q⟩) ∧
    checkPwmChannel [] 25 = Except.ok [(("4B" : String), 25)] ∧
    checkPwmChannel [(("4B" : String), 25)] 9 =
      Except.error ⟨"4B", 25⟩ := by
  have htab : ∀ p : Nat, p ≤ 13 → pinChannel (p + 16) = pinChannel p := by
    decide
  refine ⟨htab, ?_, by decide, by decide⟩
  intro reg p q hp hq
  simp [checkPwmChannel, htab p hp, hq]

/-- Claim C10 witness: pin 9 aliases pin 25 (both channel 4B), and with
pin 9 holding the channel, construction on pin 25 = 9 + 16 fails,
reporting channel 4B and owner pin 9. -/
theorem pwm_pin_alias_conflict_witness :
    pinChannel (9 + 16) = pinChannel 9 ∧
    checkPwmChannel [(("4B" : String), 9)] (9 + 16) =
      Except.error ⟨pinChannel 9, 9⟩ :=
  ⟨pwm_pin_alias_conflict.1 9 (by decide),
   pwm_pin_alias_conflict.2.1 [(("4B" : String), 9)] 9 9 (by decide) (by decide)⟩

/-! ## Step-sequence builders

The generators constructed by `OutputDevice.blink` and `PWMLED.blink`
yield fixed finite cycles of `(value, seconds)` steps; the arithmetic
of the source (Python floats) is modelled exactly over `ℚ`. -/

/-- Python `int(...)` applied to a non-negative quantity: truncation
toward zero. -/
def pyInt (q : ℚ) : Int :=
  Int.tdiv q.num q.den

/-- The cycle generated by `OutputDevice.blink`:
`off_time = on_time if off_time is None else off_time` followed by
`iter([(1, on_time), (0, off_time)])`. -/
def blinkCycle (on_time : ℚ) (off_time : Option ℚ) : List (ℚ × ℚ) :=
  let ot := off_time.getD on_time
  [(1, on_time), (0, ot)]

/-- The fade-in phase of `PWMLED.blink`:
`[(i * (1 / fps) / fade_in_time, 1 / fps) for i in range(int(fps * fade_in_time))]`,
emitted only when `fade_in_time > 0`. -/
def fadeInSteps (fps fade_in_time : ℚ) : List (ℚ × ℚ) :=
  if fade_in_time > 0 then
    (List.range (pyInt (fps * fade_in_time)).toNat).map
      (fun (i : Nat) => ((i : ℚ) * (1 / fps) / fade_in_time, 1 / fps))
  else []

/-- The fade-out phase of `PWMLED.blink`:
`[(1 - (i * (1 / fps) / fade_out_time), 1 / fps) for i in range(int(fps * fade_out_time))]`,
emitted only when `fade_out_time > 0`. -/
def fadeOutSteps (fps fade_out_time : ℚ) : List (ℚ × ℚ) :=
  if fade_out_time > 0 then
    (List.range (pyInt (fps * fade_out_time)).toNat).map
      (fun (i : Nat) => (1 - (i : ℚ) * (1 / fps) / fade_out_time, 1 / fps))
  else []

/-- The full cycle generated by `PWMLED.blink`: defaulted `off_time`
and `fade_out_time`, then fade-in steps, the on hold step when
`on_time > 0`, fade-out steps, and the off hold step when
`off_time > 0`. -/
def pwmledBlinkCycle (on_time : ℚ) (off_time : Option ℚ)
    (fade_in_time : ℚ) (fade_out_time : Option ℚ) (fps : ℚ) :
    List (ℚ × ℚ) :=
  let ot := off_time.getD on_time
  let fot := fade_out_time.getD fade_in_time
  fadeInSteps fps fade_in_time
    ++ (if on_time > 0 then [((1 : ℚ), on_time)] else [])
    ++ fadeOutSteps fps fot
    ++ (if ot > 0 then [((0 : ℚ), ot)] else [])

/-- Claim C8: `OutputDevice.blink` with `on_time = 1` and `off_time`
unspecified defaults the off time to the on time, and the generated
cycle is exactly `[(1, 1), (0, 1)]`. -/
theorem blink_default_cycle :
    blinkCycle 1 none = [((1 : ℚ), (1 : ℚ)), ((0 : ℚ), (1 : ℚ))] ∧
    ∀ t : ℚ, blinkCycle t none = blinkCycle t (some t) :=
  ⟨rfl, fun _ => rfl⟩

theorem pyInt_eq_floor (q : ℚ) (hq : 0 ≤ q) : pyInt q = ⌊q⌋ := by
  rw [pyInt, Rat.floor_def]
  exact Int.tdiv_eq_ediv (Rat.num_nonneg.mpr hq) (Int.ofNat_nonneg q.den)

theorem fadeInSteps_concrete :
    fadeInSteps 25 (1 / 5) =
      [(0, 1 / 25), (1 / 5, 1 / 25), (2 / 5, 1 / 25),
       (3 / 5, 1 / 25), (4 / 5, 1 / 25)] := by
  rw [fadeInSteps, if_pos (by norm_num : (1 : ℚ) / 5 > 0)]
  have h1 : (25 : ℚ) * (1 / 5) = 5 := by norm_num
  have h2 : pyInt ((25 : ℚ) * (1 / 5)) = 5 := by
    rw [h1, pyInt_eq_floor _ (by norm_num)]
    norm_num
  rw [h2]
  show List.map _ (List.range 5) = _
  rw [show List.range 5 = [0, 1, 2, 3, 4] from by decide]
  simp only [List.map_cons, List.map_nil]
  norm_num

/-- Claim C7 counterexample: the fade-in phase of `PWMLED.blink` with
`fade_in_time = 0.2` and `fps = 25` does not have the step values
`[0.0, 0.08, 0.16, 0.24, 0.32]` named by the claim (the actual values
are `[0, 1/5, 2/5, 3/5, 4/5]`). -/
theorem pwmled_fade_values_cex :
    (fadeInSteps 25 (1 / 5)).map Prod.fst ≠
      [0, 2 / 25, 4 / 25, 6 / 25, 8 / 25] := by
  rw [fadeInSteps_concrete]
  simp only [List.map_cons, List.map_nil, ne_eq, List.cons.injEq, not_and]
  intro h1 h2
  exact absurd h2 (by norm_num)

/-- Claim C7 amended: with `fade_in_time = 0.2` and `fps = 25` the
fade-in phase has exactly 5 steps, with values `[0, 1/5, 2/5, 3/5,
4/5]` (that is, `i / 5` for `i = 0..4`) and each of duration
`0.04 = 1/25`; in general a fade phase of length `T > 0` at `fps > 0`
frames per second emits `⌊fps * T⌋` steps of duration `1 / fps` whose
`i`-th value is `i / (fps * T)` for fade-in and `1 - i / (fps * T)` for
fade-out, and a zero-length fade phase emits no steps. -/
theorem pwmled_fade_phase (fps T : ℚ) (hfps : 0 < fps) (hT : 0 < T) :
    fadeInSteps 25 (1 / 5) =
      [(0, 1 / 25), (1 / 5, 1 / 25), (2 / 5, 1 / 25),
       (3 / 5, 1 / 25), (4 / 5, 1 / 25)] ∧
    fadeInSteps fps T =
      (List.range (⌊fps * T⌋).toNat).map
        (fun (i : Nat) => ((i : ℚ) / (fps * T), 1 / fps)) ∧
    fadeOutSteps fps T =
      (List.range (⌊fps * T⌋).toNat).map
        (fun (i : Nat) => (1 - (i : ℚ) / (fps * T), 1 / fps)) ∧
    (fadeInSteps fps T).length = (⌊fps * T⌋).toNat ∧
    fadeInSteps fps 0 = [] ∧
    fadeOutSteps fps 0 = [] := by
  have hprod : (0 : ℚ) ≤ fps * T := le_of_lt (mul_pos hfps hT)
  have hval : ∀ i : Nat, (i : ℚ) * (1 / fps) / T = (i : ℚ) / (fps * T) := by
    intro i
    field_simp
  have hin : fadeInSteps fps T =
      (List.range (⌊fps * T⌋).toNat).map
        (fun (i : Nat) => ((i : ℚ) / (fps * T), 1 / fps)) := by
    rw [fadeInSteps, if_pos hT, pyInt_eq_floor _ hprod]
    exact List.map_congr_left fun i _ => by rw [hval i]
  refine ⟨fadeInSteps_concrete, hin, ?_, ?_, by simp [fadeInSteps],
    by simp [fadeOutSteps]⟩
  · rw [fadeOutSteps, if_pos hT, pyInt_eq_floor _ hprod]
    exact List.map_congr_left fun i _ => by rw [hval i]
  · rw [hin]
    simp

/-- Claim C7 amended witness: the general fade-phase description
instantiated at `fps = 25`, `T = 1/5`. -/
theorem pwmled_fade_phase_witness :
    fadeInSteps 25 (1 / 5) =
      [(0, 1 / 25), (1 / 5, 1 / 25), (2 / 5, 1 / 25),
       (3 / 5, 1 / 25), (4 / 5, 1 / 25)] ∧
    (fadeInSteps 25 (1 / 5)).length = (⌊(25 : ℚ) * (1 / 5)⌋).toNat :=
  ⟨(pwmled_fade_phase 25 (1 / 5) (by norm_num) (by norm_num)).1,
   (pwmled_fade_phase 25 (1 / 5) (by norm_num) (by norm_num)).2.2.2.1⟩

/-! ## PWMBuzzer tone resolution -/

/-- `PWMBuzzer.NOTES`: the fixed note-name-to-frequency table. -/
def NOTES : List (String × Nat) :=
  [("b0", 31), ("c1", 33), ("c#1", 35), ("d1", 37), ("d#1", 39),
   ("e1", 41), ("f1", 44), ("f#1", 46), ("g1", 49), ("g#1", 52),
   ("a1", 55), ("a#1", 58), ("b1", 62), ("c2", 65), ("c#2", 69),
   ("d2", 73), ("d#2", 78), ("e2", 82), ("f2", 87), ("f#2", 93),
   ("g2", 98), ("g#2", 104), ("a2", 110), ("a#2", 117), ("b2", 123),
   ("c3", 131), ("c#3", 139), ("d3", 147), ("d#3", 156), ("e3", 165),
   ("f3", 175), ("f#3", 185), ("g3", 196), ("g#3", 208), ("a3", 220),
   ("a#3", 233), ("b3", 247), ("c4", 262), ("c#4", 277), ("d4", 294),
   ("d#4", 311), ("e4", 330), ("f4", 349), ("f#4", 370), ("g4", 392),
   ("g#4", 415), ("a4", 440), ("a#4", 466), ("b4", 494), ("c5", 523),
   ("c#5", 554), ("d5", 587), ("d#5", 622), ("e5", 659), ("f5", 698),
   ("f#5", 740), ("g5", 784), ("g#5", 831), ("a5", 880), ("a#5", 932),
   ("b5", 988), ("c6", 1047), ("c#6", 1109), ("d6", 1175), ("d#6", 1245),
   ("e6", 1319), ("f6", 1397), ("f#6", 1480), ("g6", 1568), ("g#6", 1661),
   ("a6", 1760), ("a#6", 1865), ("b6", 1976), ("c7", 2093), ("c#7", 2217),
   ("d7", 2349), ("d#7", 2489), ("e7", 2637), ("f7", 2794), ("f#7", 2960),
   ("g7", 3136), ("g#7", 3322), ("a7", 3520), ("a#7", 3729), ("b7", 3951),
   ("c8", 4186), ("c#8", 4435), ("d8", 4699), ("d#8", 4978)]

/-- The MIDI branch of `PWMBuzzer._to_freq`,
`int(440 * midi_factor ** (freq - 69))` with `midi_factor = 2 ** (1 / 12)`,
in exact arithmetic: the integer part of `440 * 2 ^ ((n - 69) / 12)`.
Since that quantity is positive, the integer part is the greatest `m`
with `m ≤ 440 * 2 ^ ((n - 69) / 12)`, equivalently (raising both sides
to the 12th power and clearing the exponent) the greatest `m` with
`m ^ 12 * 2 ^ 69 ≤ 440 ^ 12 * 2 ^ n`.  The search bound 16384 exceeds
the value for every `n ≤ 128` (the code only takes this branch for
`0 < n ≤ 128`). -/
def midiFreq (n : Nat) : Nat :=
  Nat.findGreatest (fun m => m ^ 12 * 2 ^ 69 ≤ 440 ^ 12 * 2 ^ n) 16384

/-- The argument of `PWMBuzzer._to_freq`: a note-name string, a number,
`None`, or the empty string. -/
inductive Tone where
  | note (s : String) : Tone
  | freqNum (n : Int) : Tone
  | pynone : Tone
  | emptyStr : Tone
deriving DecidableEq

/-- `PWMBuzzer._to_freq`: `None` and the empty string and 0 resolve to
`None`; a string indexes `NOTES` (raising `KeyError` when absent); a
number in `(0, 128]` goes through the MIDI formula; any other number is
returned verbatim. -/
def toFreq : Tone → Except KeyError (Option Int)
  | Tone.note s =>
    match lookupStr NOTES s with
    | some k => Except.ok (some (k : Int))
    | none => Except.error KeyError.mk
  | Tone.freqNum n =>
    if n ≠ 0 then
      if n ≤ 128 ∧ 0 < n then Except.ok (some ((midiFreq n.toNat : Nat) : Int))
      else Except.ok (some n)
    else Except.ok none
  | Tone.pynone => Except.ok none
  | Tone.emptyStr => Except.ok none

theorem midiFreq_at_69 : midiFreq 69 = 440 := by
  rw [midiFreq]
  refine Nat.findGreatest_eq_iff.2 ⟨by norm_num, fun _ => le_refl _, ?_⟩
  intro k hgt _hle hP
  have h12 : (440 : Nat) ^ 12 < k ^ 12 := Nat.pow_lt_pow_left hgt (by norm_num)
  have hle12 : k ^ 12 ≤ 440 ^ 12 :=
    Nat.le_of_mul_le_mul_right hP (by positivity)
  omega

theorem midiFreq_floor_spec (n : Nat) (h1 : 1 ≤ n) (h2 : n ≤ 128) :
    1 ≤ midiFreq n ∧
    (midiFreq n) ^ 12 * 2 ^ 69 ≤ 440 ^ 12 * 2 ^ n ∧
    440 ^ 12 * 2 ^ n < (midiFreq n + 1) ^ 12 * 2 ^ 69 := by
  have hP1 : (1 : Nat) ^ 12 * 2 ^ 69 ≤ 440 ^ 12 * 2 ^ n := by
    calc (1 : Nat) ^ 12 * 2 ^ 69 = 2 ^ 69 := by norm_num
    _ ≤ 440 ^ 12 * 2 ^ 1 := by norm_num
    _ ≤ 440 ^ 12 * 2 ^ n :=
        Nat.mul_le_mul_left _ (Nat.pow_le_pow_right (by norm_num) h1)
  have hmem : 1 ≤ midiFreq n :=
    Nat.le_findGreatest (P := fun m => m ^ 12 * 2 ^ 69 ≤ 440 ^ 12 * 2 ^ n)
      (by norm_num) hP1
  have hspec : (midiFreq n) ^ 12 * 2 ^ 69 ≤ 440 ^ 12 * 2 ^ n :=
    Nat.findGreatest_spec (P := fun m => m ^ 12 * 2 ^ 69 ≤ 440 ^ 12 * 2 ^ n)
      (m := 1) (by norm_num) hP1
  have hub : ¬ ((16384 : Nat) ^ 12 * 2 ^ 69 ≤ 440 ^ 12 * 2 ^ n) := by
    intro h
    have hcap : (440 : Nat) ^ 12 * 2 ^ 128 < 16384 ^ 12 * 2 ^ 69 := by norm_num
    have hmono : (440 : Nat) ^ 12 * 2 ^ n ≤ 440 ^ 12 * 2 ^ 128 :=
      Nat.mul_le_mul_left _ (Nat.pow_le_pow_right (by norm_num) h2)
    omega
  have hne : midiFreq n ≠ 16384 := by
    intro he
    exact hub (he ▸ hspec)
  have hlt : midiFreq n < 16384 :=
    lt_of_le_of_ne
      (Nat.findGreatest_le (P := fun m => m ^ 12 * 2 ^ 69 ≤ 440 ^ 12 * 2 ^ n)
        16384) hne
  refine ⟨hmem, hspec, ?_⟩
  have hnP : ¬ ((midiFreq n + 1) ^ 12 * 2 ^ 69 ≤ 440 ^ 12 * 2 ^ n) :=
    Nat.findGreatest_is_greatest
      (P := fun m => m ^ 12 * 2 ^ 69 ≤ 440 ^ 12 * 2 ^ n) (n := 16384)
      (Nat.lt_succ_self (midiFreq n)) (by omega)
  omega

/-- Claim C9: the note name "a4" resolves through the `NOTES` table to
frequency 440; the MIDI number 69 resolves through the formula
`440 * 2 ^ ((n - 69) / 12)` to 440; and a raw frequency outside the
MIDI range, such as 220, passes through unchanged. -/
theorem pwmbuzzer_tone_resolution :
    toFreq (Tone.note "a4") = Except.ok (some 440) ∧
    toFreq (Tone.freqNum 69) = Except.ok (some 440) ∧
    toFreq (Tone.freqNum 220) = Except.ok (some 220) := by
  refine ⟨by decide, ?_, by decide⟩
  show toFreq (Tone.freqNum 69) = Except.ok (some 440)
  have h69 : ((69 : Int).toNat) = 69 := rfl
  simp only [toFreq, h69, midiFreq_at_69]
  norm_num

end Picozero
